import Mathlib

set_option maxRecDepth 100000

/-!
Shallow embedding of the print-mech-analyser core in Lean 4, translated from
`src/print_mech_analyser`.  Machine bytes are modelled as `Nat` (with explicit
`% 256` where uint8 overflow matters), Python sequences as `List`, fallible
Python code as `Option`/`Except`, and floating point scores as `ℚ`.
-/

namespace PrintMech

/-! ## Frame codec — `analyser/protocol.py` -/

/-- `FrameProtocol.State` (protocol.py lines 35-37). -/
inductive PState where
  | idle
  | processing
deriving DecidableEq

/-- `FrameProtocol` decoder state (protocol.py lines 39-42).
`frame_buffer` is a byte sequence, bytes as `Nat`. -/
structure Proto where
  state : PState
  escape_next : Bool
  frame_buffer : List Nat
deriving DecidableEq

/-- Fresh decoder: `FrameProtocol.__init__` (protocol.py lines 39-42). -/
def proto0 : Proto := ⟨.idle, false, []⟩

/-- `ByteCode.FRAME_START = 0x02`. -/
def FRAME_START : Nat := 0x02
/-- `ByteCode.FRAME_END = 0x03`. -/
def FRAME_END : Nat := 0x03
/-- `ByteCode.ESCAPE = 0x1B`. -/
def ESCAPE : Nat := 0x1B

/-- `FrameProtocol.process_byte` (protocol.py lines 44-70), returning the new
decoder state together with the optional completed frame. -/
def process_byte (p : Proto) (byte : Nat) : Proto × Option (List Nat) :=
  match p.state with
  | .idle =>
      if byte = FRAME_START then
        ({ p with frame_buffer := [], state := .processing }, none)
      else
        (p, none)
  | .processing =>
      if p.escape_next then
        ({ p with frame_buffer := p.frame_buffer ++ [byte], escape_next := false }, none)
      else if byte = ESCAPE then
        ({ p with escape_next := true }, none)
      else if byte = FRAME_START then
        ({ p with state := .idle }, none)
      else if byte = FRAME_END then
        ({ p with state := .idle }, some p.frame_buffer)
      else
        ({ p with frame_buffer := p.frame_buffer ++ [byte] }, none)

/-- Feed a byte list through the decoder one byte at a time, collecting every
non-`None` return of `process_byte` in order (as `MechAnalyser.process` does,
analyser/analyser.py lines 82-91). -/
def runProto (p : Proto) : List Nat → Proto × List (List Nat)
  | [] => (p, [])
  | b :: bs =>
      let s := process_byte p b
      let r := runProto s.1 bs
      (r.1, s.2.toList ++ r.2)

/-- Outbound `Command` byte codes (protocol.py lines 10-20). -/
inductive Command where
  | Poll
  | SetPaperIn
  | SetPaperOut
  | SetPlatenIn
  | SetPlatenOut
  | RecordingStart
  | RecordingStop
deriving DecidableEq

/-- The payload byte of each command (protocol.py lines 11-20): `ord` of
`P A a L l R r` respectively. -/
def Command.payload : Command → Nat
  | .Poll => 80
  | .SetPaperIn => 65
  | .SetPaperOut => 97
  | .SetPlatenIn => 76
  | .SetPlatenOut => 108
  | .RecordingStart => 82
  | .RecordingStop => 114

/-- `Command.to_bytes` (protocol.py lines 22-23):
`bytes([FRAME_START, self, FRAME_END])`. -/
def Command.to_bytes (c : Command) : List Nat :=
  [FRAME_START, c.payload, FRAME_END]

/-! ## Printout builder — `analyser/analyser.py` -/

/-- `HEAD_WIDTH` (analyser/analyser.py line 11). -/
def HEAD_WIDTH : Nat := 384

/-- A fresh all-zero row, `np.zeros(HEAD_WIDTH).astype(uint8)`. -/
def zeroRow : List Nat := List.replicate HEAD_WIDTH 0

/-- `PrintoutBuilder` state (analyser/analyser.py lines 14-17): an ordered
list of uint8 rows and the cursor `_line`.  `_line` is a Python int that the
operations keep non-negative, so `Nat` is used. -/
structure Builder where
  image : List (List Nat)
  line : Nat
deriving DecidableEq

/-- `PrintoutBuilder.__init__` (analyser/analyser.py lines 15-17). -/
def builder0 : Builder := ⟨[zeroRow], 0⟩

/-- `PrintoutBuilder.line_advance` (analyser/analyser.py lines 19-23). -/
def line_advance (b : Builder) : Builder :=
  let line := b.line + 1
  if b.image.length ≤ line then
    ⟨b.image ++ [zeroRow], line⟩
  else
    ⟨b.image, line⟩

/-- `PrintoutBuilder.line_reverse` (analyser/analyser.py lines 25-29). -/
def line_reverse (b : Builder) : Builder :=
  if b.line = 0 then
    ⟨zeroRow :: b.image, 0⟩
  else
    ⟨b.image, b.line - 1⟩

/-- `np.bitwise_or(a, b)` on one-dimensional uint8 arrays: defined when the
shapes broadcast (equal lengths, or one side of length 1), otherwise numpy
raises — modelled as `none`. -/
def np_bitwise_or (a b : List Nat) : Option (List Nat) :=
  if a.length = b.length then
    some (a.zipWith Nat.lor b)
  else if b.length = 1 then
    some (a.map (fun x => Nat.lor x (b.headD 0)))
  else if a.length = 1 then
    some (b.map (fun x => Nat.lor (a.headD 0) x))
  else
    none

/-- `PrintoutBuilder.burn_line` (analyser/analyser.py lines 31-34):
`self._image[self._line] = np.bitwise_or(self._image[self._line], line)`.
Indexing out of range or a failed broadcast raises — modelled as `none`. -/
def burn_line (b : Builder) (mask : List Nat) : Option Builder := do
  let row ← b.image[b.line]?
  let merged ← np_bitwise_or row mask
  some ⟨b.image.set b.line merged, b.line⟩

/-- `PrintoutBuilder.get_image` (analyser/analyser.py lines 36-41): `None`
when at most one row, otherwise all rows but the last, each value multiplied
by 255 as uint8 (`% 256`). -/
def get_image (b : Builder) : Option (List (List Nat)) :=
  if b.image.length ≤ 1 then
    none
  else
    some (b.image.dropLast.map (fun row => row.map (fun v => v * 255 % 256)))

/-- A single pixel of `get_image` at row `r`, column `c`. -/
def pixel (b : Builder) (r c : Nat) : Option Nat := do
  let img ← get_image b
  let row ← img[r]?
  row[c]?

/-- `PrintoutBuilder.clear` (analyser/analyser.py lines 43-45): keep only the
last row (`self._image[-1]`, an IndexError on an empty list — modelled as
`none`, unreachable since the image list is never empty). -/
def builder_clear (b : Builder) : Option Builder := do
  let last ← b.image.getLast?
  some ⟨[last], 0⟩

/-- One builder operation, as dispatched by `MechAnalyser.process` and
`take_printout`. -/
inductive Op where
  | advance
  | reverse
  | burn (mask : List Nat)
  | clear
deriving DecidableEq

/-- Apply one operation; `none` models a raised exception. -/
def applyOp (b : Builder) : Op → Option Builder
  | .advance => some (line_advance b)
  | .reverse => some (line_reverse b)
  | .burn mask => burn_line b mask
  | .clear => builder_clear b

/-- Run a sequence of operations, stopping at the first raised exception. -/
def runOps (b : Builder) : List Op → Option Builder
  | [] => some b
  | op :: ops => do
      let b2 ← applyOp b op
      runOps b2 ops

/-- Ghost instrumentation: how many times the sequence prepends a row
(`line_reverse` with the cursor at 0), i.e. how far the logical origin moves.
Follows the same state evolution as `runOps`; if an operation raises the
count stops there. -/
def countPrepends (b : Builder) : List Op → Nat
  | [] => 0
  | op :: ops =>
      let inc := if op = .reverse ∧ b.line = 0 then 1 else 0
      match applyOp b op with
      | some b2 => inc + countPrepends b2 ops
      | none => inc

/-- Ghost instrumentation for the motion-only claim: the virtual cursor
(`+1` per advance, `-1` per reverse, possibly negative) together with the
minimum and maximum values it reaches, starting from `(v, mn, mx)`. -/
def traj : Int → Int → Int → List Op → Int × Int × Int
  | v, mn, mx, [] => (v, mn, mx)
  | v, mn, mx, .advance :: ops => traj (v + 1) mn (max mx (v + 1)) ops
  | v, mn, mx, .reverse :: ops => traj (v - 1) (min mn (v - 1)) mx ops
  | v, mn, mx, _ :: ops => traj v mn mx ops

/-- Well-formedness of reachable builder states: every row is `HEAD_WIDTH`
wide with 0/1 entries (rows start as zeros and are only ORed with
`np.unpackbits` output), and the cursor indexes an existing row. -/
def BuilderWF (b : Builder) : Prop :=
  (∀ row ∈ b.image, row.length = HEAD_WIDTH ∧ ∀ v ∈ row, v ≤ 1) ∧
  b.line < b.image.length

instance (b : Builder) : Decidable (BuilderWF b) := by
  unfold BuilderWF; infer_instance

/-! ## Frame dispatch — `MechAnalyser.process` (analyser/analyser.py 94-108) -/

/-- `np.unpackbits` of one uint8, MSB first. -/
def unpackBits8 (b : Nat) : List Nat :=
  [b / 128 % 2, b / 64 % 2, b / 32 % 2, b / 16 % 2, b / 8 % 2, b / 4 % 2,
    b / 2 % 2, b % 2]

/-- Response codes (protocol.py lines 26-31): `F`, `B`, `U`. -/
def MOTOR_ADVANCE : Nat := 70
def MOTOR_REVERSE : Nat := 66
def BURN_LINE : Nat := 85

/-- Interpretation of one completed frame, `MechAnalyser.process`
(analyser/analyser.py lines 94-108): three independent `startswith` checks on
the leading byte; a BurnLine payload is byte-reversed and unpacked MSB-first
into the mask handed to `burn_line`.  No length check or padding is
performed.  `none` models a raised exception (numpy broadcast failure in
`burn_line`). -/
def handle_frame (pb : Builder) (frame : List Nat) : Option Builder :=
  let pb1 := if frame.head? = some MOTOR_ADVANCE then line_advance pb else pb
  let pb2 := if frame.head? = some MOTOR_REVERSE then line_reverse pb1 else pb1
  if frame.head? = some BURN_LINE then
    let line_data := (frame.drop 1).reverse
    let mask := (line_data.map unpackBits8).flatten
    burn_line pb2 mask
  else
    some pb2

/-- A raw (unscaled) pixel of the builder's row list. -/
def rawPixel (b : Builder) (r c : Nat) : Option Nat := do
  let row ← b.image[r]?
  row[c]?

/-- The operations quantified over by the burn-monotonicity claim: advance,
reverse, and burns whose mask is a `HEAD_WIDTH`-wide bit mask (as produced
by `np.unpackbits` on a 48-byte payload). -/
def OpOK : Op → Prop
  | .advance => True
  | .reverse => True
  | .burn m => m.length = HEAD_WIDTH ∧ ∀ v ∈ m, v ≤ 1
  | .clear => False

instance : DecidablePred OpOK := fun op =>
  match op with
  | .advance => .isTrue trivial
  | .reverse => .isTrue trivial
  | .burn m => inferInstanceAs (Decidable (_ ∧ _))
  | .clear => .isFalse id

/-- Motion-only operations (the reversibility claim). -/
def MotionOp (op : Op) : Prop := op = .advance ∨ op = .reverse

instance : DecidablePred MotionOp := fun op =>
  inferInstanceAs (Decidable (_ ∨ _))

/-- Every pixel of every row buffer is zero. -/
def allZero (b : Builder) : Prop := ∀ row ∈ b.image, ∀ v ∈ row, v = 0

instance (b : Builder) : Decidable (allZero b) := by
  unfold allZero; infer_instance

/-! ## Geometry primitives — `geometry.py` -/

/-- `Point` (geometry.py lines 6-15).  Python ints, so `Int`. -/
structure Point where
  x : Int
  y : Int
deriving DecidableEq

/-- `Point.__add__`. -/
def Point.add (a b : Point) : Point := ⟨a.x + b.x, a.y + b.y⟩

/-- `Point.__sub__`. -/
def Point.sub (a b : Point) : Point := ⟨a.x - b.x, a.y - b.y⟩

/-- `Span` (geometry.py lines 18-29).  Python's `end` is a Lean keyword, so
the field is `end_`. -/
structure Span where
  beg : Int
  end_ : Int
deriving DecidableEq

/-- `Span.len` property: `end - beg`. -/
def Span.lenP (s : Span) : Int := s.end_ - s.beg

/-- `BoundingBox` (geometry.py lines 32-81). -/
structure BoundingBox where
  p1 : Point
  p2 : Point
deriving DecidableEq

/-- `BoundingBox.width`. -/
def BoundingBox.width (b : BoundingBox) : Int := b.p2.x - b.p1.x

/-- `BoundingBox.height`. -/
def BoundingBox.height (b : BoundingBox) : Int := b.p2.y - b.p1.y

/-- Python `int(a / 2)` for integer `a`: float division truncated toward
zero, i.e. `Int.div`. -/
def halfTrunc (a : Int) : Int := Int.tdiv a 2

/-- `BoundingBox.center` (geometry.py lines 52-57). -/
def BoundingBox.center (b : BoundingBox) : Point :=
  ⟨b.p1.x + halfTrunc (b.p2.x - b.p1.x), b.p1.y + halfTrunc (b.p2.y - b.p1.y)⟩

/-- `BoundingBox.horizontal_span`. -/
def BoundingBox.horizontal_span (b : BoundingBox) : Span := ⟨b.p1.x, b.p2.x⟩

/-- `BoundingBox.vertical_span`. -/
def BoundingBox.vertical_span (b : BoundingBox) : Span := ⟨b.p1.y, b.p2.y⟩

/-- `BoundingBox.clamp` (geometry.py lines 71-81). -/
def BoundingBox.clamp (s outer : BoundingBox) : BoundingBox :=
  ⟨⟨max (min s.p1.x outer.p2.x) outer.p1.x, max (min s.p1.y outer.p2.y) outer.p1.y⟩,
   ⟨max (min s.p2.x outer.p2.x) outer.p1.x, max (min s.p2.y outer.p2.y) outer.p1.y⟩⟩

/-! ## Printout — `printout.py` -/

/-- Normalise a Python slice bound against a sequence of length `len`:
negative indices count from the end, and bounds are clamped into
`[0, len]`. -/
def pyBound (len : Nat) (i : Int) : Nat :=
  if i < 0 then ((len : Int) + i).toNat.min len else i.toNat.min len

/-- Python `l[a:b]`. -/
def pySlice {α : Type} (l : List α) (a b : Int) : List α :=
  (l.drop (pyBound l.length a)).take (pyBound l.length b - pyBound l.length a)

/-- `Printout` (printout.py lines 13-101): a 2-D uint8 array.  numpy arrays
carry their width even when there are zero rows, so the width is a field;
every row has length `width`. -/
structure Printout where
  rows : List (List Nat)
  width : Nat
deriving DecidableEq

/-- `Printout.length` property: `shape[0]`. -/
def Printout.length (p : Printout) : Nat := p.rows.length

/-- `Printout.blank` (printout.py lines 77-79). -/
def Printout.blank (width length : Nat) : Printout :=
  ⟨List.replicate length (List.replicate width 0), width⟩

/-- `printout[a:b]` — row slicing through `Printout.__getitem__`
(printout.py lines 42-43) with a `slice(a, b)` index. -/
def Printout.sliceRows (p : Printout) (a b : Int) : Printout :=
  ⟨pySlice p.rows a b, p.width⟩

/-- `image[bbox.slice]` — `np.index_exp[p1.y:p2.y, p1.x:p2.x]` applied to a
2-D array (geometry.py lines 59-61). -/
def Printout.sliceBox (p : Printout) (b : BoundingBox) : Printout :=
  ⟨(pySlice p.rows b.p1.y b.p2.y).map (fun row => pySlice row b.p1.x b.p2.x),
   pyBound p.width b.p2.x - pyBound p.width b.p1.x⟩

/-- `np.any(arr)` on a 2-D array: some pixel is non-zero. -/
def Printout.anyPixel (p : Printout) : Bool :=
  p.rows.any (fun row => row.any (fun v => v ≠ 0))

/-! ## Font and glyph matcher — `font.py`, `parse/character.py`

The OpenCV primitives (`cv.findContours`, `cv.matchShapes`, and the
`template_similarity` wrapper around `cv.matchTemplate`/`cv.minMaxLoc`,
parse/character.py lines 151-158) are external library calls; they enter the
embedding as function parameters.  A contour is what `cv.findContours`
returns for one connected component: a list of integer points. -/

/-- A single external contour: a list of pixel coordinates. -/
abbrev Contour : Type := List (Int × Int)

/-- Modelled from the spec: the font interface consumed by the glyph matcher
(§3: a name, fixed glyph width `W` and height `H`, and per registered code
point a `W×H` bitmap plus its cached external contour list).
`src/font.py`'s `Font` stores these as `glyph_width`/`glyph_height` and the
private `_code_points`/`_glyphs`/`_contours` lists, without the
`width`/`height`/`code_points`/`glyphs`/`contours` accessors that
`parse/character.py` reads; the accessor-bearing font type belongs to the
missing `parse/glyph.py` module. -/
structure Font where
  name : String
  width : Nat
  height : Nat
  code_points : List Nat
  glyphs : List Printout
  contours : List (List Contour)
deriving DecidableEq

/-- `CharMatch` (parse/character.py lines 20-26).  The Python field `match`
is a Lean keyword, so it is named `score`; scores are `ℚ` in place of
Python floats. -/
structure CharMatch where
  char : String
  font : String
  code_point : Nat
  score : ℚ
  pos : BoundingBox
deriving DecidableEq

/-- `TEMPLATE_THRESHOLD` (parse/character.py line 16). -/
def TEMPLATE_THRESHOLD : ℚ := 100

/-- `CONTOUR_THRESHOLD` (parse/character.py line 17). -/
def CONTOUR_THRESHOLD : ℚ := 1 / 10

/-- `contour_similarity` (parse/character.py lines 132-148), with
`cv.matchShapes` supplied as `matchShape`.  Pairs contours in order with
`zip` (truncating to the shorter list) and divides the summed scores by
`len(contours1)` — the count of the FIRST argument. -/
def contour_similarity (matchShape : Contour → Contour → ℚ)
    (contours1 contours2 : List Contour) : ℚ :=
  if contours1.length = 0 ∨ contours2.length = 0 then 0
  else
    (((contours1.zip contours2).map (fun p => matchShape p.1 p.2)).sum) /
      (contours1.length : ℚ)

/-- Python `zip(a, b, c)`: truncating three-way zip into nested pairs. -/
def zip3 {α β γ : Type} (a : List α) (b : List β) (c : List γ) :
    List (α × β × γ) :=
  (a.zip (b.zip c))

/-- The contour prefilter stage of `parse_image_character_bbox`
(parse/character.py lines 75-78): keep glyphs with a non-empty cached
contour list, score each against the region's contours with
`contour_similarity`, and keep scores below `CONTOUR_THRESHOLD`. -/
def contourPrefilter (matchShape : Contour → Contour → ℚ)
    (image_contrs : List Contour) (font : Font) :
    List ((Nat × Printout × List Contour) × ℚ) :=
  let m1 := zip3 font.code_points font.glyphs font.contours
  let m2 := m1.filter (fun m => m.2.2.length ≠ 0)
  let m3 := m2.map (fun m => (m, contour_similarity matchShape image_contrs m.2.2))
  m3.filter (fun m => m.2 < CONTOUR_THRESHOLD)

/-- `image_bbox` (parse/character.py line 42): the full extent of the image,
`shape[1]` by `shape[0]`. -/
def imageBBox (image : Printout) : BoundingBox :=
  ⟨⟨0, 0⟩, ⟨(image.width : Int), (image.rows.length : Int)⟩⟩

/-- `bbox_padded` (parse/character.py lines 38-46): the target box grown
symmetrically up to the glyph size on each axis, clamped into the image. -/
def paddedBBox (image : Printout) (bbox : BoundingBox) (font : Font) : BoundingBox :=
  let xpad : Int := if bbox.width < (font.width : Int) then (font.width : Int) - bbox.width else 0
  let ypad : Int := if bbox.height < (font.height : Int) then (font.height : Int) - bbox.height else 0
  (BoundingBox.mk (bbox.p1.sub ⟨xpad, ypad⟩) (bbox.p2.add ⟨xpad, ypad⟩)).clamp (imageBBox image)

/-- `parse_image_character_bbox` (parse/character.py lines 29-129).
External OpenCV operations are parameters: `findContours` extracts external
contours of a sub-image, `templateSim` is `template_similarity`
(lines 151-158, a wrapper over `cv.matchTemplate`/`cv.minMaxLoc`) returning
the minimal score and its position.  The `cvlog.image` call is logging only
and is dropped. -/
def parse_image_character_bbox (findContours : Printout → List Contour)
    (matchShape : Contour → Contour → ℚ)
    (templateSim : Printout → Printout → ℚ × Int × Int)
    (image : Printout) (bbox : BoundingBox) (font : Font) : List CharMatch :=
  let image_bbox : BoundingBox := imageBBox image
  let bbox_padded : BoundingBox := paddedBBox image bbox font
  let character := image.sliceBox bbox_padded
  if ¬ character.anyPixel then
    -- whitespace: `spaces = math.floor(image.shape[1] / font.width)` — the
    -- width of the WHOLE image argument (Python raises on width 0;
    -- `Nat` division returns 0 there).
    let spaces := image.width / font.width
    [⟨String.mk (List.replicate spaces ' '), font.name, 0x20, 0, ⟨⟨0, 0⟩, ⟨0, 0⟩⟩⟩]
  else
    let image_contrs := findContours (image.sliceBox bbox)
    let m4 := contourPrefilter matchShape image_contrs font
    let m5 := m4.map (fun m => (m, templateSim character m.1.2.1))
    let m6 := m5.filter (fun m => m.2.1 < TEMPLATE_THRESHOLD)
    let result_width : Int := bbox_padded.width - (font.width : Int) + 1
    let result_height : Int := bbox_padded.height - (font.height : Int) + 1
    m6.map (fun m =>
      let cp := m.1.1.1
      let tpos := m.2.2
      let match_top_left : Point := ⟨tpos.1, tpos.2⟩
      let match_center : Point :=
        ⟨match_top_left.x + halfTrunc result_width,
         match_top_left.y + halfTrunc result_height⟩
      let transform_vector : Point :=
        ⟨bbox.p1.x - bbox_padded.p1.x, bbox.p1.y - bbox_padded.p1.y⟩
      let match_center := match_center.sub transform_vector
      let match_center := bbox_padded.center.add match_center
      let corner_offset : Point := ⟨halfTrunc (font.width : Int), halfTrunc (font.height : Int)⟩
      let p1 := match_center.sub corner_offset
      let p2 := match_center.add corner_offset
      ⟨String.mk [Char.ofNat cp], font.name, cp, m.2.1,
        (BoundingBox.mk p1 p2).clamp image_bbox⟩)

/-! ## Space model — `parse/space.py` -/

/-- Modelled from the spec: `GlyphMatch` is imported from `parse/glyph.py`,
a module missing from src/; its fields (`match`, `pos`, ... — §3
"GlyphMatch") coincide with `CharMatch` of parse/character.py. -/
abbrev GlyphMatch := CharMatch

/-- Python exceptions that the embedded code can raise. -/
inductive PyErr where
  | typeError
  | indexError
  | attributeError
deriving DecidableEq

/-- `HorizontalSpace` and its three variants (parse/space.py lines 15-85):
`WhiteSpace`, `UnknownSpace`, `GlyphSpace` (the latter carrying the sorted
match list). -/
inductive HSpace where
  | white (span : Span)
  | unknown (span : Span)
  | glyphS (span : Span) (ms : List GlyphMatch)
deriving DecidableEq

/-- The `span` attribute of a `HorizontalSpace`. -/
def HSpace.span : HSpace → Span
  | .white s => s
  | .unknown s => s
  | .glyphS s _ => s

/-- Assign the `span` attribute (`result[y][x].span = ...`). -/
def HSpace.setSpan : HSpace → Span → HSpace
  | .white _, s => .white s
  | .unknown _, s => .unknown s
  | .glyphS _ ms, s => .glyphS s ms

/-- `HorizontalSpace.has_volume` (parse/space.py lines 29-31):
`self.span.end > self.span.beg`. -/
def HSpace.has_volume (h : HSpace) : Bool := h.span.beg < h.span.end_

/-- `type(hs) is UnknownSpace`. -/
def HSpace.isUnknown : HSpace → Bool
  | .unknown _ => true
  | _ => false

/-- `VerticalSpace` (parse/space.py lines 91-142). -/
structure VSpace where
  span : Span
  contents : List HSpace
deriving DecidableEq

/-- `len(vert)` where `vert` is a `VerticalSpace`: `VerticalSpace.__len__`
(parse/space.py lines 110-111) returns `len(self.span)`, but
`geometry.Span` defines `len` only as a property — it has no `__len__` — so
the built-in `len()` raises `TypeError`. -/
def vertLenPy (_ : VSpace) : Except PyErr Int := .error .typeError

/-- `len(hori)` where `hori` is a `HorizontalSpace`:
`HorizontalSpace.__len__` (parse/space.py lines 26-27) likewise returns
`len(self.span)` and raises `TypeError`. -/
def horiLenPy (_ : HSpace) : Except PyErr Int := .error .typeError

/-- `VerticalSpace.has_volume` (parse/space.py lines 117-119):
`len(self.span) > 0` — raises `TypeError` exactly like `vertLenPy`. -/
def vertHasVolumePy (_ : VSpace) : Except PyErr Bool := .error .typeError

/-- `VerticalSpace.get_bbox` (parse/space.py lines 125-135). -/
def VSpace.get_bbox (v : VSpace) (index : Nat) : BoundingBox :=
  let h := v.contents.getD index (.white ⟨0, 0⟩)
  ⟨⟨h.span.beg, v.span.beg⟩, ⟨h.span.end_, v.span.end_⟩⟩

/-! ## Space segmentation — `parse/space.py` lines 148-201 -/

/-- `np.any(print, axis=1)` for one row. -/
def rowAny (row : List Nat) : Bool := row.any (fun v => v ≠ 0)

/-- `np.where(a[:-1] != a[1:])[0] + 1`: the indices (plus one) where
consecutive activity flags differ. -/
def changePoints (a : List Bool) : List Nat :=
  (List.range (a.length - 1)).filterMap
    (fun i => if a.getD i false ≠ a.getD (i + 1) false then some (i + 1) else none)

/-- The loop of `from_printout` lines 178-180: run `i` over the offsets,
each run ending at the next offset, the last at `len`. -/
def runsFromOffsets (len : Nat) : List Nat → List (Nat × Nat)
  | [] => []
  | [a] => [(a, len)]
  | a :: b :: rest => (a, b) :: runsFromOffsets len (b :: rest)

/-- `parse_horizontal` (parse/space.py lines 192-201).  `burned_cols[s.beg]`
is in range whenever the width is positive (offsets all lie below the
width); `getD` supplies the value. -/
def parse_horizontal (p : Printout) : List HSpace :=
  let burned_cols := (List.range p.width).map (fun j => p.rows.any (fun r => r.getD j 0 ≠ 0))
  let offsets : List Nat := 0 :: changePoints burned_cols
  let spans : List (Nat × Nat) :=
    (offsets.zip offsets.tail) ++ [(offsets.getLastD 0, p.width)]
  spans.map (fun s =>
    if burned_cols.getD s.1 false then
      .unknown ⟨(s.1 : Int), (s.2 : Int)⟩
    else
      .white ⟨(s.1 : Int), (s.2 : Int)⟩)

/-- `from_printout` (parse/space.py lines 148-189): vertical run
segmentation, each run parsed horizontally, spans offset by the ROI
begin. -/
def from_printout (printout : Printout) (roi : Option Span) : List VSpace :=
  let pr := match roi with
    | none => printout
    | some r => printout.sliceRows r.beg r.end_
  let roi_offset : Int := match roi with
    | none => 0
    | some r => r.beg
  let burned_rows := pr.rows.map rowAny
  let offsets : List Nat := 0 :: changePoints burned_rows
  (runsFromOffsets pr.length offsets).map (fun be =>
    ⟨⟨(be.1 : Int) + roi_offset, (be.2 : Int) + roi_offset⟩,
      parse_horizontal (pr.sliceRows (be.1 : Int) (be.2 : Int))⟩)

/-! ## Descriptor — `parse/descriptor.py`

`parse_glyph.from_image` comes from the missing `parse/glyph.py`; the
pipeline takes it as the parameter `matcher` (modelled from the spec §4.G:
the glyph matcher applied to the full printout array, the region's bounding
box and a font — the role `parse_image_character_bbox` plays in
parse/character.py). -/

/-- Stable sort of matches by ascending score
(`matches.sort(key=lambda m: m.match)`, descriptor.py line 80). -/
def insertByScore (m : GlyphMatch) : List GlyphMatch → List GlyphMatch
  | [] => [m]
  | a :: l => if m.score < a.score then m :: a :: l else a :: insertByScore m l

/-- Python's stable `list.sort` by the score key. -/
def sortByScore (l : List GlyphMatch) : List GlyphMatch :=
  l.foldr insertByScore []

/-- The font loop of `parse_unknown` (descriptor.py lines 70-75): for each
font the guard `len(vert) > (font.height * 1.5) or len(hori) > (font.width
* 1.5)` is evaluated first; `len(vert)` raises `TypeError` (see
`vertLenPy`), so with a non-empty font list the loop raises at its first
iteration. -/
def fontMatches (matcher : Printout → BoundingBox → Font → List GlyphMatch)
    (printout : Printout) (bbox : BoundingBox) (vert : VSpace) (hori : HSpace) :
    List Font → Except PyErr (List GlyphMatch)
  | [] => .ok []
  | font :: rest => do
      let lv ← vertLenPy vert
      let lh ← horiLenPy hori
      if (lv : ℚ) > (font.height : ℚ) * (3 / 2) ∨ (lh : ℚ) > (font.width : ℚ) * (3 / 2) then
        fontMatches matcher printout bbox vert hori rest
      else do
        let more ← fontMatches matcher printout bbox vert hori rest
        .ok (matcher printout bbox font ++ more)

/-- The inner loop of `parse_unknown` over the unknown spaces of one
vertical space (descriptor.py lines 66-81), threading the mutated contents
list. -/
def parseUnknownLoop (matcher : Printout → BoundingBox → Font → List GlyphMatch)
    (printout : Printout) (vertSpan : Span) (fonts : List Font) :
    List (Nat × HSpace) → List HSpace → Except PyErr (List HSpace)
  | [], contents => .ok contents
  | (x, hori) :: rest, contents => do
      let bbox := VSpace.get_bbox ⟨vertSpan, contents⟩ x
      let ms ← fontMatches matcher printout bbox ⟨vertSpan, contents⟩ hori fonts
      if ms.length = 0 then
        parseUnknownLoop matcher printout vertSpan fonts rest contents
      else
        parseUnknownLoop matcher printout vertSpan fonts rest
          (contents.set x (.glyphS hori.span (sortByScore ms)))

/-- `parse_unknown` (descriptor.py lines 55-83). -/
def parse_unknown (matcher : Printout → BoundingBox → Font → List GlyphMatch)
    (printout : Printout) (space : List VSpace) (fonts : List Font) :
    Except PyErr (List VSpace) :=
  space.mapM (fun vert => do
    let unknowns := vert.contents.enum.filter (fun p => p.2.isUnknown)
    let contents2 ← parseUnknownLoop matcher printout vert.span fonts unknowns vert.contents
    .ok (⟨vert.span, contents2⟩ : VSpace))

/-- Replace the vertical space at index `y` (a no-op out of range, which the
loops never hit). -/
def updV (st : List VSpace) (y : Nat) (f : VSpace → VSpace) : List VSpace :=
  st.set y (f (st.getD y ⟨⟨0, 0⟩, []⟩))

/-- Replace the horizontal space at `(y, x)`. -/
def updH (st : List VSpace) (y x : Nat) (f : HSpace → HSpace) : List VSpace :=
  updV st y (fun v => ⟨v.span, v.contents.set x (f (v.contents.getD x (.white ⟨0, 0⟩)))⟩)

/-- The strong-match filter of `constrain_whitespace` (descriptor.py lines
92-94): keep the `GlyphSpace`s, then those whose `matches[0].match < 0.001`;
indexing `matches[0]` of an empty list raises `IndexError` (unreachable for
spaces built by `parse_unknown`). -/
def strongOf : List (Nat × HSpace) → Except PyErr (List (Nat × GlyphMatch))
  | [] => .ok []
  | (x, .glyphS _ ms) :: rest =>
      match ms with
      | [] => .error .indexError
      | m :: _ => do
          let r ← strongOf rest
          .ok (if m.score < 1 / 1000 then (x, m) :: r else r)
  | _ :: rest => strongOf rest

/-- One strong glyph space's constraint step (descriptor.py lines 96-108):
set its span to the top match's horizontal span and clip the two adjacent
horizontal spaces. -/
def horiConstrain (st : List VSpace) (y x : Nat) (m : GlyphMatch)
    (contentsLen : Nat) : List VSpace :=
  let mhs := m.pos.horizontal_span
  let a1 := updH st y x (fun h => h.setSpan mhs)
  let a2 := if 0 < x then
      updH a1 y (x - 1) (fun h => h.setSpan ⟨h.span.beg, mhs.beg⟩)
    else a1
  if x < contentsLen - 1 then
    updH a2 y (x + 1) (fun h => h.setSpan ⟨mhs.end_, h.span.end_⟩)
  else a2

/-- One iteration of the `for y, vert in enumerate(space)` loop of
`constrain_whitespace` (descriptor.py lines 89-127): hold the strong
matches, constrain each horizontally, then the vertical span (when all the
strong vertical spans agree), then drop zero-width horizontal spaces — the
latter two only when at least one strong match exists (`continue`, lines
113-114). -/
def constrainStepE (origLen : Nat) (st : List VSpace) (y : Nat) :
    Except PyErr (List VSpace) := do
  let vert := st.getD y ⟨⟨0, 0⟩, []⟩
  let strong ← strongOf vert.contents.enum
  let st1 := strong.foldl (fun acc p => horiConstrain acc y p.1 p.2 vert.contents.length) st
  let vert_spans := strong.map (fun p => p.2.pos.vertical_span)
  match vert_spans with
  | [] => .ok st1
  | v0 :: rest =>
      let st2 :=
        if rest.all (fun s => s = v0) then
          let a := updV st1 y (fun v => ⟨v0, v.contents⟩)
          let b := if 0 < y then
              updV a (y - 1) (fun v => ⟨⟨v.span.beg, v0.beg⟩, v.contents⟩)
            else a
          if y < origLen - 1 then
            updV b (y + 1) (fun v => ⟨⟨v0.end_, v.span.end_⟩, v.contents⟩)
          else b
        else st1
      .ok (updV st2 y (fun v => ⟨v.span, v.contents.filter HSpace.has_volume⟩))

/-- Monadic list filter for Python comprehensions whose predicate can
raise. -/
def pyFilter {α : Type} (f : α → Except PyErr Bool) : List α → Except PyErr (List α)
  | [] => .ok []
  | a :: l => do
      let b ← f a
      let r ← pyFilter f l
      .ok (if b then a :: r else r)

/-- The `y` loop of `constrain_whitespace`. -/
def constrainFold (origLen : Nat) : List Nat → List VSpace → Except PyErr (List VSpace)
  | [], st => .ok st
  | y :: ys, st => do
      let st2 ← constrainStepE origLen st y
      constrainFold origLen ys st2

/-- `constrain_whitespace` (descriptor.py lines 86-132).  The final
`[y for y in space if y.has_volume]` (line 130) evaluates
`VerticalSpace.has_volume`, which raises `TypeError` (`len()` of a
`Span`) — so the pass raises on every non-empty input. -/
def constrain_whitespace (space : List VSpace) : Except PyErr (List VSpace) := do
  let st ← constrainFold space.length (List.range space.length) space
  pyFilter vertHasVolumePy st

/-- `PrintoutDescriptor` (descriptor.py lines 17-21). -/
structure PrintoutDescriptor where
  printout : Printout
  contents : List VSpace
  fonts : List Font
deriving DecidableEq

/-- `PrintoutDescriptor.new` (descriptor.py lines 23-30). -/
def descriptor_new (matcher : Printout → BoundingBox → Font → List GlyphMatch)
    (printout : Printout) (fonts : List Font) : Except PyErr PrintoutDescriptor := do
  let space := from_printout printout none
  let space ← parse_unknown matcher printout space fonts
  let space ← constrain_whitespace space
  .ok ⟨printout, space, fonts⟩

/-- Modelled from the spec: `Printout.extend` is called by
`PrintoutDescriptor.extend` (descriptor.py line 33) but no such method
exists in src/printout.py; §2 component B ("append") and §3 ("height grows
monotonically through append") make it appending of the extension's rows
below the existing ones. -/
def Printout.extend (p q : Printout) : Printout := ⟨p.rows ++ q.rows, p.width⟩

/-- `PrintoutDescriptor.extend` (descriptor.py lines 32-46). -/
def descriptor_extend (matcher : Printout → BoundingBox → Font → List GlyphMatch)
    (d : PrintoutDescriptor) (ext : Printout) : Except PyErr PrintoutDescriptor := do
  let printout := d.printout.extend ext
  let lastV ← match d.contents.getLast? with
    | some v => Except.ok v
    | none => Except.error PyErr.indexError
  let roi : Span := ⟨lastV.span.beg, (printout.length : Int)⟩
  let kept := d.contents.dropLast
  let space := from_printout printout (some roi)
  let space ← parse_unknown matcher printout space d.fonts
  let space ← constrain_whitespace space
  .ok ⟨printout, kept ++ space, d.fonts⟩

/-! # Theorems -/

/-! ## Codec lemmas -/

theorem runProto_append (p : Proto) (xs ys : List Nat) :
    runProto p (xs ++ ys) =
      ((runProto (runProto p xs).1 ys).1,
        (runProto p xs).2 ++ (runProto (runProto p xs).1 ys).2) := by
  induction xs generalizing p with
  | nil => simp [runProto]
  | cons b bs ih =>
      simp only [List.cons_append, runProto, List.append_eq]
      rw [ih]
      simp [List.append_assoc]

theorem runProto_payload (S : List Nat)
    (h : ∀ b ∈ S, b ≠ FRAME_START ∧ b ≠ FRAME_END ∧ b ≠ ESCAPE) (buf : List Nat) :
    runProto ⟨.processing, false, buf⟩ S = (⟨.processing, false, buf ++ S⟩, []) := by
  induction S generalizing buf with
  | nil => simp [runProto]
  | cons b bs ih =>
      obtain ⟨h1, h2, h3⟩ := h b (by simp)
      have step : process_byte ⟨.processing, false, buf⟩ b =
          (⟨.processing, false, buf ++ [b]⟩, none) := by
        simp [process_byte, h1, h2, h3]
      simp only [runProto, step]
      rw [ih (fun x hx => h x (by simp [hx]))]
      simp

theorem runProto_idle_skip (G : List Nat) (h : ∀ b ∈ G, b ≠ FRAME_START)
    (e : Bool) (buf : List Nat) :
    runProto ⟨.idle, e, buf⟩ G = (⟨.idle, e, buf⟩, []) := by
  induction G with
  | nil => simp [runProto]
  | cons b bs ih =>
      have h1 := h b (by simp)
      have step : process_byte ⟨.idle, e, buf⟩ b = (⟨.idle, e, buf⟩, none) := by
        simp [process_byte, h1]
      simp only [runProto, step]
      rw [ih (fun x hx => h x (by simp [hx]))]
      simp

theorem runProto_idle_buffer (T : List Nat) (buf buf' : List Nat) :
    (runProto ⟨.idle, false, buf⟩ T).2 = (runProto ⟨.idle, false, buf'⟩ T).2 := by
  induction T generalizing buf buf' with
  | nil => simp [runProto]
  | cons b bs ih =>
      by_cases hb : b = FRAME_START
      · subst hb
        simp [runProto, process_byte]
      · simp only [runProto, process_byte]
        simp only [hb, if_false]
        exact ih buf buf'

/-- C1.  Codec round-trip: a payload free of the control bytes `0x02`,
`0x03`, `0x1B`, wrapped as `0x02 S 0x03` and fed byte-wise to a fresh
decoder, produces exactly one frame, equal to `S`; in particular each
`Command.to_bytes` decodes to exactly one single-byte frame holding the
command's payload byte.  (A byte sequence with "no unescaped occurrence" of
a control byte cannot contain any control byte at all: its first `0x1B`
would itself be unescaped.) -/
theorem C1_codec_roundtrip (S : List Nat) (cmd : Command)
    (h : ∀ b ∈ S, b ≠ FRAME_START ∧ b ≠ FRAME_END ∧ b ≠ ESCAPE) :
    (runProto proto0 (FRAME_START :: (S ++ [FRAME_END]))).2 = [S] ∧
      (runProto proto0 cmd.to_bytes).2 = [[cmd.payload]] := by
  constructor
  · have step : process_byte proto0 FRAME_START =
        (⟨.processing, false, []⟩, none) := by
      simp [process_byte, proto0, FRAME_START]
    simp only [runProto, step]
    rw [runProto_append, runProto_payload S h []]
    simp [runProto, process_byte, FRAME_START, FRAME_END, ESCAPE]
  · cases cmd <;> decide

/-- Closed witness for C1 at `S = [0x41]`, `cmd = Poll`. -/
theorem C1_codec_roundtrip_witness :
    (runProto proto0 (FRAME_START :: ([0x41] ++ [FRAME_END]))).2 = [[0x41]] ∧
      (runProto proto0 Command.Poll.to_bytes).2 = [[Command.Poll.payload]] :=
  C1_codec_roundtrip [0x41] Command.Poll (by decide)

/-- C5 (amended).  Resynchronisation: (1) garbage containing no `0x02`
before any stream decodes to exactly the frames of that stream; (2) a frame
interrupted by an extra unescaped `0x02` is aborted without emission and
later frames decode as from a fresh decoder, PROVIDED the rest of the
interrupted frame contains no `0x02` byte.  (As stated the claim is false:
an escaped `0x02` in the remainder restarts a frame from `Idle` — where
escape handling is off — and a spurious frame is emitted; see the
counterexample.) -/
theorem C5_codec_resync (G F P R T bufP : List Nat)
    (hG : ∀ b ∈ G, b ≠ FRAME_START)
    (hP : runProto proto0 (FRAME_START :: P) = (⟨.processing, false, bufP⟩, []))
    (hR : ∀ b ∈ R, b ≠ FRAME_START) :
    (runProto proto0 (G ++ F)).2 = (runProto proto0 F).2 ∧
      (runProto proto0 ((FRAME_START :: P) ++ FRAME_START :: (R ++ T))).2 =
        (runProto proto0 T).2 := by
  constructor
  · rw [runProto_append]
    have hGrun : runProto proto0 G = (proto0, []) := runProto_idle_skip G hG false []
    rw [hGrun]
    simp
  · rw [runProto_append, hP]
    have step2 : process_byte ⟨.processing, false, bufP⟩ FRAME_START =
        (⟨.idle, false, bufP⟩, none) := by
      simp [process_byte, FRAME_START, ESCAPE]
    simp only [runProto, step2]
    rw [runProto_append, runProto_idle_skip R hR false bufP]
    simpa using runProto_idle_buffer T bufP []

/-- Closed witness for C5 at `G = [0x07]`, `F = [2, 0x41, 3]`,
`P = [0x41]`, `R = [0x1B]`, `T = [2, 0x42, 3]`. -/
theorem C5_codec_resync_witness :
    (runProto proto0 ([0x07] ++ [0x02, 0x41, 0x03])).2 =
        (runProto proto0 [0x02, 0x41, 0x03]).2 ∧
      (runProto proto0 ((FRAME_START :: [0x41]) ++
          FRAME_START :: ([0x1B] ++ [0x02, 0x42, 0x03]))).2 =
        (runProto proto0 [0x02, 0x42, 0x03]).2 :=
  C5_codec_resync [0x07] [0x02, 0x41, 0x03] [0x41] [0x1B] [0x02, 0x42, 0x03]
    [0x41] (by decide) (by decide) (by decide)

/-- C5 counterexample.  The encoded frame `0x02 0x1B 0x02 0x03` (payload
`[0x02]`) interrupted right after its start byte by an extra unescaped
`0x02`, followed by the valid frame `0x02 0x41 0x03`: the decoder emits a
spurious EMPTY frame for the interrupted one (the escaped `0x02` of the
remainder restarts a frame in `Idle`), so the output is not just the
subsequent frame. -/
theorem C5_counterexample :
    (runProto proto0 [0x02, 0x1B, 0x02, 0x03]).2 = [[0x02]] ∧
      (runProto proto0 [0x02, 0x02, 0x1B, 0x02, 0x03, 0x02, 0x41, 0x03]).2 =
        [[], [0x41]] ∧
      (runProto proto0 [0x02, 0x02, 0x1B, 0x02, 0x03, 0x02, 0x41, 0x03]).2 ≠
        [[0x41]] := by
  refine ⟨by decide, by decide, by decide⟩

/-! ## Builder lemmas -/

theorem applyOp_cursor {b b' : Builder} (hb : b.line < b.image.length)
    (op : Op) (h : applyOp b op = some b') : b'.line < b'.image.length := by
  cases op with
  | advance =>
      simp only [applyOp, Option.some.injEq] at h
      subst h
      by_cases hc : b.image.length ≤ b.line + 1
      · simp [line_advance, hc]
        omega
      · simp [line_advance, hc]
        omega
  | reverse =>
      simp only [applyOp, Option.some.injEq] at h
      subst h
      by_cases hc : b.line = 0
      · simp [line_reverse, hc]
      · simp [line_reverse, hc]
        omega
  | burn mask =>
      simp only [applyOp, burn_line, Option.bind_eq_bind, Option.bind_eq_some] at h
      obtain ⟨row, hrow, merged, hm, hb'⟩ := h
      simp only [Option.some.injEq] at hb'
      subst hb'
      simpa using hb
  | clear =>
      simp only [applyOp, builder_clear, Option.bind_eq_bind, Option.bind_eq_some] at h
      obtain ⟨last, hlast, hb'⟩ := h
      simp only [Option.some.injEq] at hb'
      subst hb'
      simp

theorem runOps_cursor (ops : List Op) : ∀ b, b.line < b.image.length →
    ∀ b', runOps b ops = some b' → b'.line < b'.image.length := by
  induction ops with
  | nil =>
      intro b hb b' h'
      simp only [runOps, Option.some.injEq] at h'
      exact h' ▸ hb
  | cons op rest ih =>
      intro b hb b' h'
      simp only [runOps, Option.bind_eq_bind, Option.bind_eq_some] at h'
      obtain ⟨b2, h2, hrest⟩ := h'
      exact ih b2 (applyOp_cursor hb op h2) b' hrest

/-- C10.  Builder cursor safety: after any sequence of advance / reverse /
burn / clear operations that runs without a numpy broadcast error, the
cursor satisfies `0 ≤ _line < len(_image)` (the lower bound is inherent in
`Nat`), hence the row indexing `_image[_line]` performed by `burn_line`
is in bounds. -/
theorem C10_cursor_safety (ops : List Op) (b' : Builder)
    (h : runOps builder0 ops = some b') :
    b'.line < b'.image.length ∧ (b'.image[b'.line]?).isSome := by
  have hlt := runOps_cursor ops builder0 (by decide) b' h
  refine ⟨hlt, ?_⟩
  rw [List.getElem?_eq_getElem hlt]
  rfl

/-- Closed witness for C10 at the sequence advance, burn all-ones, clear. -/
theorem C10_cursor_safety_witness :
    let result : Builder := ⟨[List.replicate HEAD_WIDTH 1], 0⟩
    result.line < result.image.length ∧ (result.image[result.line]?).isSome :=
  C10_cursor_safety [.advance, .burn (List.replicate HEAD_WIDTH 1), .clear]
    ⟨[List.replicate HEAD_WIDTH 1], 0⟩ (by decide)

/-- The mask produced from a BurnLine payload has `8 * len(payload)`
entries. -/
theorem burn_mask_length (payload : List Nat) :
    ((payload.map unpackBits8).flatten).length = 8 * payload.length := by
  induction payload with
  | nil => simp
  | cons b bs ih => simp [unpackBits8, ih]; omega

/-- C3 (amended).  A BurnLine frame whose payload length differs from 48 is
NOT tolerated: no padding happens, the payload is reversed and unpacked into
a mask of `8·len` ≠ 384 bits, and `np.bitwise_or` of that mask with the
384-wide row fails to broadcast, raising an error (`none`).  No occurrence
counter exists either. -/
theorem C3_burnline_short_payload (pb : Builder) (payload : List Nat)
    (hwf : BuilderWF pb) (hlen : payload.length ≠ 48) :
    handle_frame pb (BURN_LINE :: payload) = none := by
  obtain ⟨hrows, hline⟩ := hwf
  have hrow : pb.image[pb.line]? = some pb.image[pb.line] :=
    List.getElem?_eq_getElem hline
  have hrowlen : (pb.image[pb.line]).length = HEAD_WIDTH :=
    (hrows _ (List.getElem_mem hline)).1
  have hmask : ((payload.reverse.map unpackBits8).flatten).length = 8 * payload.length := by
    rw [burn_mask_length, List.length_reverse]
  have hstep : handle_frame pb (BURN_LINE :: payload) =
      burn_line pb ((payload.reverse.map unpackBits8).flatten) := by
    unfold handle_frame
    have hA : ¬ (BURN_LINE = MOTOR_ADVANCE) := by decide
    have hB : ¬ (BURN_LINE = MOTOR_REVERSE) := by decide
    simp [hA, hB]
  rw [hstep]
  unfold burn_line
  rw [hrow]
  simp only [Option.bind_eq_bind, Option.some_bind]
  have hnone : np_bitwise_or pb.image[pb.line]
      ((payload.reverse.map unpackBits8).flatten) = none := by
    unfold np_bitwise_or
    rw [hrowlen, hmask]
    have c1 : ¬ (HEAD_WIDTH = 8 * payload.length) := by unfold HEAD_WIDTH; omega
    have c2 : ¬ (8 * payload.length = 1) := by omega
    have c3 : ¬ (HEAD_WIDTH = 1) := by decide
    simp [c1, c2, c3]
  rw [hnone]
  rfl

/-- Closed witness for C3's amended theorem at the one-byte payload `[0]`. -/
theorem C3_burnline_short_payload_witness :
    handle_frame builder0 (BURN_LINE :: [0]) = none :=
  C3_burnline_short_payload builder0 [0] (by decide) (by decide)

/-- C3 counterexample.  The claim as stated is false: processing the
BurnLine frame with the empty payload does not succeed (numpy broadcast
error), while the 48-byte zero-padded payload the claim appeals to would
have succeeded. -/
theorem C3_counterexample :
    handle_frame builder0 [BURN_LINE] = none ∧
      (handle_frame builder0 (BURN_LINE :: List.replicate 48 0)).isSome = true := by
  refine ⟨by decide, by decide⟩

/-! ## Motion-only reversibility -/

theorem zeroRow_allZero : ∀ v ∈ zeroRow, v = 0 :=
  fun _ hv => List.eq_of_mem_replicate hv

theorem motion_inv (ops : List Op) :
    (∀ op ∈ ops, MotionOp op) → ∀ (b : Builder) (v mn mx : Int),
      (b.line : Int) = v - mn →
      (b.image.length : Int) = 1 + mx - mn →
      mn ≤ v → v ≤ mx →
      allZero b →
      ∃ b', runOps b ops = some b' ∧
        (b'.line : Int) = (traj v mn mx ops).1 - (traj v mn mx ops).2.1 ∧
        (b'.image.length : Int) = 1 + (traj v mn mx ops).2.2 - (traj v mn mx ops).2.1 ∧
        allZero b' := by
  induction ops with
  | nil =>
      intro _ b v mn mx h1 h2 _ _ h5
      exact ⟨b, rfl, by simpa [traj] using h1, by simpa [traj] using h2, h5⟩
  | cons op rest ih =>
      intro hm b v mn mx h1 h2 h3 h4 h5
      have hrest : ∀ o ∈ rest, MotionOp o := fun o ho => hm o (by simp [ho])
      rcases hm op (by simp) with hA | hR
      · subst hA
        by_cases hc : v = mx
        · have hcond : b.image.length ≤ b.line + 1 := by omega
          have hstep : applyOp b .advance = some ⟨b.image ++ [zeroRow], b.line + 1⟩ := by
            simp [applyOp, line_advance, hcond]
          have hz2 : allZero ⟨b.image ++ [zeroRow], b.line + 1⟩ := by
            intro row hrow
            rcases List.mem_append.1 hrow with h | h
            · exact h5 row h
            · simp only [List.mem_singleton] at h
              exact h ▸ zeroRow_allZero
          obtain ⟨b', hrun, hl, hlen, hz⟩ :=
            ih hrest ⟨b.image ++ [zeroRow], b.line + 1⟩ (v + 1) mn (mx + 1)
              (by push_cast; omega)
              (by push_cast [List.length_append, List.length_cons, List.length_nil]; omega)
              (by omega) (by omega) hz2
          refine ⟨b', by simp [runOps, hstep, hrun], ?_, ?_, hz⟩
          · simpa [traj, hc, max_eq_right (by omega : mx ≤ v + 1),
              (by omega : v + 1 = mx + 1)] using hl
          · simpa [traj, hc, max_eq_right (by omega : mx ≤ v + 1),
              (by omega : v + 1 = mx + 1)] using hlen
        · have hcond : ¬ b.image.length ≤ b.line + 1 := by omega
          have hstep : applyOp b .advance = some ⟨b.image, b.line + 1⟩ := by
            simp [applyOp, line_advance, hcond]
          obtain ⟨b', hrun, hl, hlen, hz⟩ :=
            ih hrest ⟨b.image, b.line + 1⟩ (v + 1) mn mx
              (by push_cast; omega) (by simpa using h2) (by omega) (by omega) h5
          refine ⟨b', by simp [runOps, hstep, hrun], ?_, ?_, hz⟩
          · simpa [traj, max_eq_left (by omega : v + 1 ≤ mx)] using hl
          · simpa [traj, max_eq_left (by omega : v + 1 ≤ mx)] using hlen
      · subst hR
        by_cases hc : v = mn
        · have hline0 : b.line = 0 := by omega
          have hstep : applyOp b .reverse = some ⟨zeroRow :: b.image, 0⟩ := by
            simp [applyOp, line_reverse, hline0]
          have hz2 : allZero ⟨zeroRow :: b.image, 0⟩ := by
            intro row hrow
            rcases List.mem_cons.1 hrow with h | h
            · exact h ▸ zeroRow_allZero
            · exact h5 row h
          obtain ⟨b', hrun, hl, hlen, hz⟩ :=
            ih hrest ⟨zeroRow :: b.image, 0⟩ (v - 1) (mn - 1) mx
              (by push_cast; omega) (by push_cast [List.length_cons]; omega)
              (by omega) (by omega) hz2
          refine ⟨b', by simp [runOps, hstep, hrun], ?_, ?_, hz⟩
          · simpa [traj, min_eq_right (by omega : v - 1 ≤ mn),
              (by omega : v - 1 = mn - 1)] using hl
          · simpa [traj, min_eq_right (by omega : v - 1 ≤ mn),
              (by omega : v - 1 = mn - 1)] using hlen
        · have hline : b.line ≠ 0 := by omega
          have hstep : applyOp b .reverse = some ⟨b.image, b.line - 1⟩ := by
            simp [applyOp, line_reverse, hline]
          obtain ⟨b', hrun, hl, hlen, hz⟩ :=
            ih hrest ⟨b.image, b.line - 1⟩ (v - 1) mn mx
              (by push_cast; omega) (by simpa using h2) (by omega) (by omega) h5
          refine ⟨b', by simp [runOps, hstep, hrun], ?_, ?_, hz⟩
          · simpa [traj, min_eq_left (by omega : mn ≤ v - 1)] using hl
          · simpa [traj, min_eq_left (by omega : mn ≤ v - 1)] using hlen

/-- C6.  Motion-only reversibility: starting from a fresh builder, after
any sequence of only advance/reverse operations every pixel of every row
buffer is 0, and the row count equals `1 + (max reached virtual cursor −
min reached virtual cursor)` (the virtual cursor starts at 0 and may go
negative; `traj` tracks it with its extrema). -/
theorem C6_motion_reversibility (ops : List Op) (hm : ∀ op ∈ ops, MotionOp op)
    (b' : Builder) (h : runOps builder0 ops = some b') :
    allZero b' ∧
      (b'.image.length : Int) =
        1 + (traj 0 0 0 ops).2.2 - (traj 0 0 0 ops).2.1 := by
  obtain ⟨b'', hrun, _, hlen, hz⟩ :=
    motion_inv ops hm builder0 0 0 0 (by simp [builder0]) (by simp [builder0])
      le_rfl le_rfl (by decide)
  rw [h] at hrun
  cases hrun
  exact ⟨hz, hlen⟩

/-- Closed witness for C6 at the sequence reverse, advance, advance. -/
theorem C6_motion_reversibility_witness :
    allZero (⟨[zeroRow, zeroRow, zeroRow], 2⟩ : Builder) ∧
      ((⟨[zeroRow, zeroRow, zeroRow], 2⟩ : Builder).image.length : Int) =
        1 + (traj 0 0 0 [.reverse, .advance, .advance]).2.2 -
          (traj 0 0 0 [.reverse, .advance, .advance]).2.1 :=
  C6_motion_reversibility [.reverse, .advance, .advance] (by decide)
    ⟨[zeroRow, zeroRow, zeroRow], 2⟩ (by decide)

/-! ## Burn monotonicity -/

theorem lor_le_one {a b : Nat} (ha : a ≤ 1) (hb : b ≤ 1) : Nat.lor a b ≤ 1 := by
  interval_cases a <;> interval_cases b <;> decide

theorem lor_one_left {m : Nat} (hm : m ≤ 1) : Nat.lor 1 m = 1 := by
  interval_cases m <;> decide

theorem zipWith_lor_le_one : ∀ {as bs : List Nat}, (∀ a ∈ as, a ≤ 1) →
    (∀ x ∈ bs, x ≤ 1) → ∀ v ∈ List.zipWith Nat.lor as bs, v ≤ 1 := by
  intro as
  induction as with
  | nil => intro bs _ _ v hv; simp at hv
  | cons a as ih =>
      intro bs ha hb v hv
      cases bs with
      | nil => simp at hv
      | cons x xs =>
          simp only [List.zipWith_cons_cons, List.mem_cons] at hv
          rcases hv with rfl | hv
          · exact lor_le_one (ha a (by simp)) (hb x (by simp))
          · exact ih (fun y hy => ha y (by simp [hy]))
              (fun y hy => hb y (by simp [hy])) v hv

theorem zeroRow_wf : zeroRow.length = HEAD_WIDTH ∧ ∀ v ∈ zeroRow, v ≤ 1 :=
  ⟨by simp [zeroRow], fun v hv => by simp [List.eq_of_mem_replicate hv]⟩

/-- Under well-formedness, a pixel reported 255 by `get_image` is exactly a
raw value 1 strictly above the in-progress row. -/
theorem pixel_eq_255 (b : Builder) (hwf : BuilderWF b) (r c : Nat) :
    pixel b r c = some 255 ↔ (r + 1 < b.image.length ∧ rawPixel b r c = some 1) := by
  obtain ⟨hrows, _⟩ := hwf
  by_cases hlen : b.image.length ≤ 1
  · have hnone : pixel b r c = none := by simp [pixel, get_image, hlen]
    rw [hnone]
    simp
    intro h1
    omega
  · have himg : get_image b =
        some (b.image.dropLast.map (fun row => row.map (fun v => v * 255 % 256))) := by
      simp [get_image, hlen]
    by_cases hr : r + 1 < b.image.length
    · have hr' : r < b.image.length := by omega
      have hdl : b.image.dropLast[r]? = b.image[r]? := by
        rw [List.dropLast_eq_take]
        exact List.getElem?_take_of_lt (by omega)
      have hrsome : b.image[r]? = some b.image[r] := List.getElem?_eq_getElem hr'
      have hwfr := hrows _ (List.getElem_mem hr')
      simp only [pixel, himg, Option.bind_eq_bind, Option.some_bind,
        List.getElem?_map, hdl, hrsome, Option.map_some, rawPixel]
      cases hcv : (b.image[r])[c]? with
      | none => simp [hcv, hr]
      | some v =>
          have hvmem : v ∈ b.image[r] := by
            rw [List.getElem?_eq_some_iff] at hcv
            obtain ⟨hlt, hv⟩ := hcv
            exact hv ▸ List.getElem_mem hlt
          have hv1 : v ≤ 1 := hwfr.2 v hvmem
          interval_cases v
          · simp [hcv, hr]
          · simp [hcv, hr]
    · have hdl : b.image.dropLast[r]? = none := by
        rw [List.dropLast_eq_take]
        apply List.getElem?_eq_none
        simp [List.length_take]
        omega
      have hnone : pixel b r c = none := by
        simp only [pixel, himg, Option.bind_eq_bind, Option.some_bind,
          List.getElem?_map, hdl]
        rfl
      rw [hnone]
      simp
      intro h1
      omega

theorem step_mono (b : Builder) (op : Op) (hwf : BuilderWF b) (hop : OpOK op) :
    ∃ b2, applyOp b op = some b2 ∧ BuilderWF b2 ∧
      ∀ r c, r + 1 < b.image.length → rawPixel b r c = some 1 →
        (r + (if op = .reverse ∧ b.line = 0 then 1 else 0)) + 1 < b2.image.length ∧
        rawPixel b2 (r + (if op = .reverse ∧ b.line = 0 then 1 else 0)) c = some 1 := by
  obtain ⟨hrows, hline⟩ := hwf
  cases op with
  | advance =>
      have hsh : (if Op.advance = Op.reverse ∧ b.line = 0 then 1 else 0) = 0 := by simp
      rw [hsh]
      by_cases hc : b.image.length ≤ b.line + 1
      · refine ⟨⟨b.image ++ [zeroRow], b.line + 1⟩,
          by simp [applyOp, line_advance, hc], ⟨?_, ?_⟩, ?_⟩
        · intro row hrow
          rcases List.mem_append.1 hrow with h | h
          · exact hrows row h
          · simp only [List.mem_singleton] at h
            exact h ▸ zeroRow_wf
        · simp
          omega
        · intro r c h1 h2
          have heq : (b.image ++ [zeroRow])[r]? = b.image[r]? :=
            List.getElem?_append_left (by omega)
          refine ⟨by simp; omega, by simpa [rawPixel, heq] using h2⟩
      · refine ⟨⟨b.image, b.line + 1⟩, by simp [applyOp, line_advance, hc], ⟨hrows, by simp; omega⟩, ?_⟩
        intro r c h1 h2
        exact ⟨by simpa using h1, by simpa [rawPixel] using h2⟩
  | reverse =>
      by_cases hc : b.line = 0
      · have hsh : (if Op.reverse = Op.reverse ∧ b.line = 0 then 1 else 0) = 1 := by
          simp [hc]
        rw [hsh]
        refine ⟨⟨zeroRow :: b.image, 0⟩, by simp [applyOp, line_reverse, hc],
          ⟨?_, by simp⟩, ?_⟩
        · intro row hrow
          rcases List.mem_cons.1 hrow with h | h
          · exact h ▸ zeroRow_wf
          · exact hrows row h
        · intro r c h1 h2
          have heq : (zeroRow :: b.image)[r + 1]? = b.image[r]? :=
            List.getElem?_cons_succ
          refine ⟨by simp; omega, by simpa [rawPixel, heq] using h2⟩
      · have hsh : (if Op.reverse = Op.reverse ∧ b.line = 0 then 1 else 0) = 0 := by
          simp [hc]
        rw [hsh]
        refine ⟨⟨b.image, b.line - 1⟩, by simp [applyOp, line_reverse, hc],
          ⟨hrows, by simp; omega⟩, ?_⟩
        intro r c h1 h2
        exact ⟨by simpa using h1, by simpa [rawPixel] using h2⟩
  | burn mask =>
      obtain ⟨hmlen, hment⟩ := hop
      have hsh : (if Op.burn mask = Op.reverse ∧ b.line = 0 then 1 else 0) = 0 := by simp
      rw [hsh]
      have hrow? : b.image[b.line]? = some b.image[b.line] :=
        List.getElem?_eq_getElem hline
      have hwfrow := hrows _ (List.getElem_mem hline)
      have hor : np_bitwise_or b.image[b.line] mask =
          some (List.zipWith Nat.lor b.image[b.line] mask) := by
        simp [np_bitwise_or, hwfrow.1, hmlen]
      refine ⟨⟨b.image.set b.line (List.zipWith Nat.lor b.image[b.line] mask), b.line⟩,
        by simp [applyOp, burn_line, hrow?, hor], ⟨?_, by simp [hline]⟩, ?_⟩
      · intro row hrow
        rcases List.mem_or_eq_of_mem_set hrow with h | h
        · exact hrows row h
        · subst h
          exact ⟨by simp [List.length_zipWith, hwfrow.1, hmlen],
            zipWith_lor_le_one hwfrow.2 hment⟩
      · intro r c h1 h2
        refine ⟨by simpa using h1, ?_⟩
        simp only [Nat.add_zero]
        by_cases hrl : r = b.line
        · subst hrl
          simp only [rawPixel, hrow?, Option.bind_eq_bind, Option.some_bind] at h2
          have hcl : c < (b.image[b.line]).length := by
            obtain ⟨hh, -⟩ := List.getElem?_eq_some_iff.1 h2
            exact hh
          have hcm : c < mask.length := by
            rw [hmlen, ← hwfrow.1]
            exact hcl
          have hmv : mask[c]? = some mask[c] := List.getElem?_eq_getElem hcm
          simp only [rawPixel, Option.bind_eq_bind]
          rw [List.getElem?_set_self (by simpa using hline)]
          simp only [Option.some_bind]
          rw [List.getElem?_zipWith]
          rw [h2, hmv]
          have hone : Nat.lor 1 mask[c] = 1 :=
            lor_one_left (hment _ (List.getElem_mem hcm))
          simp [hone]
        · have heq : (b.image.set b.line (List.zipWith Nat.lor b.image[b.line] mask))[r]? =
              b.image[r]? :=
            List.getElem?_set_ne (fun h => hrl h.symm)
          simpa [rawPixel, heq] using h2
  | clear => exact hop.elim

theorem runOps_mono (ops : List Op) :
    (∀ op ∈ ops, OpOK op) → ∀ b, BuilderWF b →
      ∃ b', runOps b ops = some b' ∧ BuilderWF b' ∧
        ∀ r c, r + 1 < b.image.length → rawPixel b r c = some 1 →
          (r + countPrepends b ops) + 1 < b'.image.length ∧
          rawPixel b' (r + countPrepends b ops) c = some 1 := by
  induction ops with
  | nil =>
      intro _ b hwf
      refine ⟨b, rfl, hwf, ?_⟩
      intro r c h1 h2
      simpa [countPrepends] using ⟨h1, h2⟩
  | cons op rest ih =>
      intro hops b hwf
      obtain ⟨b2, hstep, hwf2, hpix⟩ := step_mono b op hwf (hops op (by simp))
      obtain ⟨b', hrun, hwf', hpix'⟩ := ih (fun o ho => hops o (by simp [ho])) b2 hwf2
      refine ⟨b', by simp [runOps, hstep, hrun], hwf', ?_⟩
      intro r c h1 h2
      have hcount : countPrepends b (op :: rest) =
          (if op = .reverse ∧ b.line = 0 then 1 else 0) + countPrepends b2 rest := by
        simp [countPrepends, hstep]
      obtain ⟨hlt2, hraw2⟩ := hpix r c h1 h2
      obtain ⟨hlt', hraw'⟩ := hpix' _ c hlt2 hraw2
      rw [hcount]
      constructor
      · omega
      · rw [← Nat.add_assoc]
        exact hraw'

/-- C2.  Burn monotonicity: starting from any well-formed builder state,
after any sequence of advance / reverse / burn operations (burn masks being
384-wide bit masks) every pixel that `get_image` reported as 255 is still
reported 255 at the same logical position — the row index shifted by the
number of rows the sequence prepends (`countPrepends`), the column
unchanged.  No operation clears a burned pixel. -/
theorem C2_burn_monotonicity (b : Builder) (ops : List Op) (hwf : BuilderWF b)
    (hops : ∀ op ∈ ops, OpOK op) (b' : Builder) (hrun : runOps b ops = some b')
    (r c : Nat) (hpix : pixel b r c = some 255) :
    pixel b' (r + countPrepends b ops) c = some 255 := by
  obtain ⟨h1, h2⟩ := (pixel_eq_255 b hwf r c).1 hpix
  obtain ⟨b'', hrun', hwf', hpres⟩ := runOps_mono ops hops b hwf
  rw [hrun] at hrun'
  cases hrun'
  exact (pixel_eq_255 b' hwf' _ c).2 (hpres r c h1 h2)

/-- Closed witness for C2: a builder with one fully burned stable row,
moved up twice (the second reverse prepends a row). -/
theorem C2_burn_monotonicity_witness :
    pixel ⟨[zeroRow, List.replicate HEAD_WIDTH 1, zeroRow], 0⟩
      (0 + countPrepends ⟨[List.replicate HEAD_WIDTH 1, zeroRow], 1⟩
        [.reverse, .reverse]) 0 = some 255 :=
  C2_burn_monotonicity ⟨[List.replicate HEAD_WIDTH 1, zeroRow], 1⟩
    [.reverse, .reverse] (by decide) (by decide)
    ⟨[zeroRow, List.replicate HEAD_WIDTH 1, zeroRow], 0⟩ (by decide) 0 0 (by decide)

/-! ## Glyph matcher -/

/-- C7 (amended).  A glyph survives the contour prefilter iff its cached
contour list is non-empty and its `contour_similarity` against the region's
contours is below `CONTOUR_THRESHOLD`; that similarity pairs contours in
order, TRUNCATING to the shorter list (no count-equality requirement
exists), and divides the summed pair scores by the REGION's contour count
(it is 0 outright when the region has no contours). -/
theorem C7_contour_prefilter (matchShape : Contour → Contour → ℚ)
    (ics : List Contour) (font : Font)
    (entry : Nat × Printout × List Contour) (q : ℚ) :
    (entry, q) ∈ contourPrefilter matchShape ics font ↔
      (entry ∈ zip3 font.code_points font.glyphs font.contours ∧
        entry.2.2 ≠ [] ∧
        q = contour_similarity matchShape ics entry.2.2 ∧
        q < CONTOUR_THRESHOLD) := by
  simp only [contourPrefilter, List.mem_filter, List.mem_map, decide_eq_true_eq]
  constructor
  · rintro ⟨⟨m, ⟨hm1, hlen⟩, heq⟩, hlt⟩
    rw [Prod.mk.injEq] at heq
    obtain ⟨rfl, rfl⟩ := heq
    refine ⟨hm1, ?_, rfl, hlt⟩
    simpa [← List.length_eq_zero] using hlen
  · rintro ⟨hm1, hne, rfl, hlt⟩
    exact ⟨⟨entry, ⟨hm1, by simpa [← List.length_eq_zero] using hne⟩, rfl⟩, hlt⟩

/-- C7 counterexample.  With a region yielding two contours and a glyph
caching a single contour (counts differ), the glyph still survives the
prefilter: the single zipped pair's score (0, as `cv.matchShapes` returns
for identical contours) divided by the region count 2 is below the
threshold.  This refutes "survives only if the counts are equal". -/
theorem C7_counterexample :
    contourPrefilter (fun _ _ => 0)
        [[((0 : Int), (0 : Int))], [((0 : Int), (0 : Int))]]
        ⟨"f", 5, 7, [65], [⟨[[255]], 1⟩], [[[((0 : Int), (0 : Int))]]]⟩ =
      [((65, ⟨[[255]], 1⟩, [[((0 : Int), (0 : Int))]]), 0)] ∧
      ([[((0 : Int), (0 : Int))], [((0 : Int), (0 : Int))]] : List Contour).length ≠
        ([[((0 : Int), (0 : Int))]] : List Contour).length := by
  constructor
  · norm_num [contourPrefilter, zip3, contour_similarity, CONTOUR_THRESHOLD]
  · decide

/-- C8 (amended).  When the PADDED-and-clamped region is entirely zero, the
matcher returns exactly one match with score 0 whose char is a run of
`floor(image_width / W)` spaces — the width of the WHOLE source image, not
of the target region (`spaces = math.floor(image.shape[1] / font.width)`,
parse/character.py line 55; Python would raise `ZeroDivisionError` on a
zero glyph width, hence the positivity hypothesis). -/
theorem C8_whitespace_match (findContours : Printout → List Contour)
    (matchShape : Contour → Contour → ℚ)
    (templateSim : Printout → Printout → ℚ × Int × Int)
    (image : Printout) (bbox : BoundingBox) (font : Font)
    (hz : (image.sliceBox (paddedBBox image bbox font)).anyPixel = false)
    (hw : 0 < font.width) :
    parse_image_character_bbox findContours matchShape templateSim image bbox font =
      [⟨String.mk (List.replicate (image.width / font.width) ' '), font.name, 0x20, 0,
        ⟨⟨0, 0⟩, ⟨0, 0⟩⟩⟩] := by
  unfold parse_image_character_bbox
  simp [hz]

/-- Closed witness for C8's amended theorem: an all-blank 8-wide image whose
full extent is the region; one space results. -/
theorem C8_whitespace_match_witness :
    parse_image_character_bbox (fun _ => []) (fun _ _ => 0) (fun _ _ => (0, 0, 0))
        (Printout.blank 8 1) ⟨⟨0, 0⟩, ⟨8, 1⟩⟩ ⟨"f", 8, 1, [], [], []⟩ =
      [⟨String.mk (List.replicate ((Printout.blank 8 1).width / 8) ' '), "f", 0x20, 0,
        ⟨⟨0, 0⟩, ⟨0, 0⟩⟩⟩] :=
  C8_whitespace_match (fun _ => []) (fun _ _ => 0) (fun _ _ => (0, 0, 0))
    (Printout.blank 8 1) ⟨⟨0, 0⟩, ⟨8, 1⟩⟩ ⟨"f", 8, 1, [], [], []⟩ (by decide) (by decide)

/-- C8 counterexample.  A 20-wide all-blank image with a 10-wide target
region and an 8-wide font: the claim demands `floor(10/8) = 1` space, but
the matcher returns a 2-space string (`floor(20/8)`, from the image
width). -/
theorem C8_counterexample :
    parse_image_character_bbox (fun _ => []) (fun _ _ => 0) (fun _ _ => (0, 0, 0))
        (Printout.blank 20 1) ⟨⟨0, 0⟩, ⟨10, 1⟩⟩ ⟨"f", 8, 1, [], [], []⟩ =
      [⟨String.mk (List.replicate 2 ' '), "f", 0x20, 0, ⟨⟨0, 0⟩, ⟨0, 0⟩⟩⟩] ∧
      (BoundingBox.mk ⟨0, 0⟩ ⟨10, 1⟩).width.tdiv 8 = 1 ∧
      (String.mk (List.replicate 2 ' ')).length = 2 := by
  refine ⟨by decide, by decide, by decide⟩

/-! ## Descriptor constrain pass -/

theorem updV_length (st : List VSpace) (y : Nat) (f : VSpace → VSpace) :
    (updV st y f).length = st.length := by
  simp [updV]

theorem updH_length (st : List VSpace) (y x : Nat) (f : HSpace → HSpace) :
    (updH st y x f).length = st.length := by
  simp [updH, updV]

theorem horiConstrain_length (st : List VSpace) (y x : Nat) (m : GlyphMatch)
    (n : Nat) : (horiConstrain st y x m n).length = st.length := by
  unfold horiConstrain
  split_ifs <;> simp [updH_length]

theorem foldl_horiConstrain_length (y n : Nat)
    (strong : List (Nat × GlyphMatch)) :
    ∀ st : List VSpace,
      (strong.foldl (fun acc p => horiConstrain acc y p.1 p.2 n) st).length =
        st.length := by
  induction strong with
  | nil => intro st; rfl
  | cons p rest ih =>
      intro st
      simp only [List.foldl_cons]
      rw [ih, horiConstrain_length]

theorem except_bind_ok {ε α β : Type} {x : Except ε α} {f : α → Except ε β}
    {b : β} (h : x >>= f = .ok b) : ∃ a, x = .ok a ∧ f a = .ok b := by
  cases x with
  | error e => exact Except.noConfusion h
  | ok a => exact ⟨a, rfl, h⟩

theorem constrainStepE_length (n : Nat) (st : List VSpace) (y : Nat)
    (st' : List VSpace) (h : constrainStepE n st y = .ok st') :
    st'.length = st.length := by
  unfold constrainStepE at h
  simp only [] at h
  obtain ⟨strong, -, h⟩ := except_bind_ok h
  cases hv : strong.map (fun p => p.2.pos.vertical_span) with
  | nil =>
      rw [hv] at h
      simp only [Except.ok.injEq] at h
      subst h
      rw [foldl_horiConstrain_length]
  | cons v0 rest =>
      rw [hv] at h
      simp only [Except.ok.injEq] at h
      subst h
      rw [updV_length]
      split_ifs <;>
        simp [updV_length, foldl_horiConstrain_length]

theorem constrainFold_length (n : Nat) (ys : List Nat) :
    ∀ st st' : List VSpace, constrainFold n ys st = .ok st' →
      st'.length = st.length := by
  induction ys with
  | nil =>
      intro st st' h
      simp only [constrainFold, Except.ok.injEq] at h
      rw [h]
  | cons y rest ih =>
      intro st st' h
      unfold constrainFold at h
      obtain ⟨st2, hs, h⟩ := except_bind_ok h
      rw [ih st2 st' h, constrainStepE_length n st y st2 hs]

/-- C9.  The constrain pass cannot run at all: the final
`[y for y in space if y.has_volume]` (descriptor.py line 130) evaluates
`VerticalSpace.has_volume`, which computes `len(self.span)` on a
`geometry.Span` — a class exposing `len` only as a property, with no
`__len__` — so Python raises `TypeError` on every non-empty input, instead
of returning the span-tightened list the claim (and the spec, whose intent
`Span.len` makes clear) describes.  The pass returns normally only on the
empty list. -/
theorem C9_constrain_pass_raises :
    constrain_whitespace [⟨⟨0, 2⟩, [.white ⟨0, 384⟩]⟩] = .error .typeError ∧
      ∀ (space l : List VSpace), constrain_whitespace space = .ok l →
        space = [] ∧ l = [] := by
  constructor
  · rfl
  · intro space l h
    unfold constrain_whitespace at h
    obtain ⟨st', hf, h⟩ := except_bind_ok h
    have hlen := constrainFold_length space.length _ space st' hf
    cases st' with
    | nil =>
        simp only [pyFilter, Except.ok.injEq] at h
        have hsp : space.length = 0 := by rw [← hlen]; rfl
        exact ⟨List.length_eq_zero.1 hsp, h.symm⟩
    | cons v vs =>
        unfold pyFilter at h
        obtain ⟨bb, hbb, -⟩ := except_bind_ok h
        exact Except.noConfusion hbb

/-- Closed witness for C9's second conjunct at the empty space list. -/
theorem C9_constrain_pass_raises_witness :
    ([] : List VSpace) = [] ∧ ([] : List VSpace) = [] :=
  C9_constrain_pass_raises.2 [] [] rfl

/-- C4.  Neither side of the claimed extend/from-scratch equivalence
produces a descriptor: `PrintoutDescriptor.new` and
`PrintoutDescriptor.extend` both abort with `TypeError` inside
`constrain_whitespace` (see C9) on every non-empty printout —
here evaluated on a blank 2-row printout extended by 1 row, with no fonts
(`Printout.extend` itself is additionally absent from src/printout.py and
is modelled from the spec as row append). -/
theorem C4_extend_never_yields :
    descriptor_new (fun _ _ _ => []) (Printout.blank 4 2) [] = .error .typeError ∧
      descriptor_extend (fun _ _ _ => [])
        ⟨Printout.blank 4 2, [⟨⟨0, 2⟩, [.white ⟨0, 4⟩]⟩], []⟩ (Printout.blank 4 1) =
        .error .typeError := by
  exact ⟨rfl, rfl⟩

end PrintMech
